import Mathlib

/-!
Shallow embedding of the hybrid-retrieval core of the LLM-PDF-Q-A repository:
the `VectorStore` (src/vector.ts), the knowledge-graph store interface and the
multi-hop traversal of `queryPDF` (src/index.ts), the oracle retry discipline
and the answer-stage context packing (src/prompts.ts, shipped inside pdf.ts).

Numbers are modelled as rationals.  The value `dot(a,b)/(|a|*|b|)` computed by
`cosineSimilarity` in the non-degenerate branch involves a real square root and
is therefore abstracted as an explicit function parameter `cos`; the control
flow of the source (length check, zero-magnitude guard, error propagation) is
embedded exactly.  Strings are Lean `String`s; JS string length is char count
(all concrete inputs used below are ASCII, where the two coincide).
-/

/-- One entry of the vector store: src/vector.ts `VectorEntry`. -/
structure VectorEntry where
  text : String
  embedding : List ℚ
deriving DecidableEq, Repr

/-- A similarity-scored label: src/vector.ts `Similarity`. -/
structure Similarity where
  text : String
  similarity : ℚ
deriving DecidableEq, Repr

namespace VectorStore

/-- Sum of squares of a vector, `vec.reduce((sum, val) => sum + val * val, 0)`.
The source compares `Math.sqrt` of this against 0; over nonnegative numbers
`sqrt x = 0` iff `x = 0`, so the guard is embedded on the square. -/
def magnitudeSq (v : List ℚ) : ℚ := v.foldl (fun s x => s + x * x) 0

/-- src/vector.ts `cosineSimilarity`: throws on length mismatch, returns 0 when
either magnitude is zero, otherwise returns the cosine value (abstracted as the
parameter `cos`, see the header comment). -/
def cosineSimilarity (cos : List ℚ → List ℚ → ℚ) (vec1 vec2 : List ℚ) :
    Except String ℚ :=
  if vec1.length ≠ vec2.length then .error "Vectors must have the same length"
  else if magnitudeSq vec1 = 0 ∨ magnitudeSq vec2 = 0 then .ok 0
  else .ok (cos vec1 vec2)

/-- src/vector.ts `contains`: `entries.some(entry => entry.text === text)`. -/
def contains (entries : List VectorEntry) (text : String) : Bool :=
  entries.any (fun entry => entry.text == text)

/-- src/vector.ts `store`: no-op when the label is present, else append. -/
def store (entries : List VectorEntry) (text : String) (embedding : List ℚ) :
    List VectorEntry :=
  if contains entries text then entries else entries ++ [⟨text, embedding⟩]

/-- The similarity-collection loop of src/vector.ts `get_most_similar`:
skip the entry whose label equals the query label, compute the cosine of every
other entry (errors propagate), keep insertion order. -/
def collectSims (cos : List ℚ → List ℚ → ℚ) :
    List VectorEntry → String → List ℚ → Except String (List Similarity)
  | [], _, _ => .ok []
  | entry :: rest, text, embedding =>
    if entry.text = text then collectSims cos rest text embedding
    else
      match cosineSimilarity cos entry.embedding embedding with
      | .error e => .error e
      | .ok c =>
        match collectSims cos rest text embedding with
        | .error e => .error e
        | .ok sims => .ok (⟨entry.text, c⟩ :: sims)

/-- Stable insertion into a descending-sorted list: the new element precedes
exactly the suffix of elements with similarity ≤ its own, which is the stable
behaviour of the JS `sort((a, b) => b.similarity - a.similarity)`. -/
def insertDesc (x : Similarity) : List Similarity → List Similarity
  | [] => [x]
  | y :: ys => if y.similarity ≤ x.similarity then x :: y :: ys
               else y :: insertDesc x ys

/-- Stable descending sort by similarity (JS `Array.prototype.sort` is
specified stable; the comparator is `b.similarity - a.similarity`). -/
def sortDesc : List Similarity → List Similarity
  | [] => []
  | x :: xs => insertDesc x (sortDesc xs)

/-- src/vector.ts `get_most_similar`: empty store short-circuits to `[]`;
otherwise collect similarities, sort descending (stably) and truncate to
`max_results`. -/
def get_most_similar (cos : List ℚ → List ℚ → ℚ) (entries : List VectorEntry)
    (text : String) (embedding : List ℚ) (max_results : Nat) :
    Except String (List Similarity) :=
  if entries.length = 0 then .ok []
  else
    match collectSims cos entries text embedding with
    | .error e => .error e
    | .ok similarities => .ok ((sortDesc similarities).take max_results)

end VectorStore

/-- A parsed JSON value, as produced by `JSON.parse` in src/vector.ts `load`. -/
inductive JVal where
  | jnull
  | jbool (b : Bool)
  | jnum (q : ℚ)
  | jstr (s : String)
  | jarr (elems : List JVal)
  | jobj (fields : List (String × JVal))

/-- JavaScript truthiness of a defined value (`NaN` is not modelled). -/
def JVal.truthy : JVal → Bool
  | .jnull => false
  | .jbool b => b
  | .jnum q => decide (q ≠ 0)
  | .jstr s => decide (s ≠ "")
  | .jarr _ => true
  | .jobj _ => true

/-- Property access `v.k`: `none` models JS `undefined` (missing field or
access on a non-object). -/
def JVal.getField : JVal → String → Option JVal
  | .jobj fields, k => (fields.find? (fun f => f.1 == k)).map (fun f => f.2)
  | _, _ => none

/-- Truthiness of a possibly-undefined value (`undefined` is falsy). -/
def JVal.truthyOpt : Option JVal → Bool
  | none => false
  | some v => v.truthy

namespace VectorStore

/-- The per-entry validation of src/vector.ts `load`:
`!entry.text || !Array.isArray(entry.embedding)` throws. -/
def validEntry (e : JVal) : Bool :=
  JVal.truthyOpt (e.getField "text") &&
    (match e.getField "embedding" with
     | some (.jarr _) => true
     | _ => false)

/-- src/vector.ts `load`, modelled on the parsed file content.  `file = none`
models an `ENOENT` read failure (caught: the store is reset to `[]`);
`file = some parsed` models a successful read plus `JSON.parse`.  The result
pairs the outcome with the resulting `entries` field of the store: every
throwing path leaves the entries as they were, since the assignment
`this.entries = parsed.entries` runs only after all validation.  A JS array is
always truthy, so `!parsed.entries || !Array.isArray(parsed.entries)` is
exactly "the `entries` field is not an array". -/
def load (current : List JVal) (file : Option JVal) :
    Except String Unit × List JVal :=
  match file with
  | none => (.ok (), [])
  | some parsed =>
    match parsed.getField "entries" with
    | some (.jarr entries) =>
      if entries.all validEntry then (.ok (), entries)
      else (.error "Failed to load vector store: Invalid entry format in vector store file", current)
    | _ => (.error "Failed to load vector store: Invalid vector store file format", current)

end VectorStore

/-- src/prompts.ts `GraphNode`; also used for the quads of the graph store
(`index.ts` converts a quad to a `GraphNode` by pure field renaming:
object value ↦ `value`, graph ↦ `chunk`, all `@en` literals). -/
structure GraphNode where
  subject : String
  predicate : String
  value : String
  chunk : String
deriving DecidableEq, Repr

/-- Modelled from the spec: the knowledge-graph store of `index.ts` is the
external `n3` package's `N3.Store` (`rdfStore.addQuad`), whose implementation
is not part of this repository; per the spec's interface
(`addFact(subject, predicate, object, provenance)`: always appends; duplicates
permitted; the store is a multiset) it is modelled as an append to a list of
quads. -/
def addFact (store : List GraphNode) (s p o prov : String) : List GraphNode :=
  store ++ [⟨s, p, o, prov⟩]

/-- `rdfStore.match(null, null, literal(v, "en"))` of index.ts `queryPDF`:
all stored objects are `@en` literals, so this is a filter on the object
value. -/
def matchObj (store : List GraphNode) (v : String) : List GraphNode :=
  store.filter (fun q => q.value == v)

/-- `rdfStore.match(namedNode(s), null, null)`: filter on the subject. -/
def matchSubj (store : List GraphNode) (s : String) : List GraphNode :=
  store.filter (fun q => q.subject == s)

/-- The inner dedup loop of index.ts `queryPDF` (lines 261–277): walk the
found quads; a quad already in `visitedNodes` (full 4-tuple comparison) is
dropped, a first-seen quad is pushed onto both `tmp` and `visitedNodes`.
Returns `(tmp, visitedNodes)`. -/
def visitQuads (visited : List GraphNode) :
    List GraphNode → List GraphNode × List GraphNode
  | [] => ([], visited)
  | n :: rest =>
    if n ∈ visited then visitQuads visited rest
    else
      let res := visitQuads (visited ++ [n]) rest
      (n :: res.1, res.2)

/-- The per-hop expansion of index.ts `queryPDF` (lines 254–279): for each
selected node take the union (concatenation) of the object-match and the
subject-match query results, dedup against the visited set, and accumulate the
new nodes of all selected nodes into the next frontier. -/
def expandNodes (store : List GraphNode) :
    List GraphNode → List GraphNode → List GraphNode × List GraphNode
  | visited, [] => ([], visited)
  | visited, node :: rest =>
    let qs := matchObj store node.value ++ matchSubj store node.subject
    let r1 := visitQuads visited qs
    let r2 := expandNodes store r1.2 rest
    (r1.1 ++ r2.1, r2.2)

/-- The `while (true)` traversal loop of index.ts `queryPDF` (lines 241–283),
with the external relevance oracle `chooseNextGraphNode` abstracted as the
function parameter `choose` (it may return any list of nodes).  `fuel` is the
structural-recursion budget only; from the entry point the `depth > 2` check
always fires before the fuel runs out, and the fuel-0 fallback returns the same
state the depth check would.  Returns the final `visitedNodes` and the final
value of `depth`, which counts executed hops. -/
def queryLoop (choose : Nat → List GraphNode → List GraphNode)
    (store : List GraphNode) :
    Nat → Nat → List GraphNode → List GraphNode → List GraphNode × Nat
  | 0, depth, _, visited => (visited, depth)
  | fuel + 1, depth, frontier, visited =>
    if 2 < depth then (visited, depth)
    else if frontier = [] then (visited, depth)
    else
      let next := choose depth frontier
      let r := expandNodes store visited next
      queryLoop choose store fuel (depth + 1) r.1 r.2

/-- The query-phase traversal: loop from `depth = 0` with an empty visited
set over the given initial frontier (built by the SEED stage). -/
def queryTraversal (choose : Nat → List GraphNode → List GraphNode)
    (store : List GraphNode) (frontier : List GraphNode) :
    List GraphNode × Nat :=
  queryLoop choose store 4 0 frontier []

/-- JS `String.prototype.split` with a single-character separator, on the
character list. -/
def splitOnChar (c : Char) : List Char → List (List Char)
  | [] => [[]]
  | x :: xs =>
    let r := splitOnChar c xs
    if x = c then [] :: r
    else
      match r with
      | [] => [[x]]
      | y :: ys => (x :: y) :: ys

/-- `n.chunk.split('_')[1]` of index.ts `queryPDF` line 285; `none` models the
JS `undefined` produced when there is no `'_'` in the string. -/
def chunkIndexOf (chunk : String) : Option String :=
  ((splitOnChar '_' chunk.data).map (fun cs => String.mk cs)).get? 1

/-- The retrieval result handed to the answer stage (index.ts line 285):
`visitedNodes.map(n => n.chunk.split('_')[1])`. -/
def retrievalResult (visited : List GraphNode) : List (Option String) :=
  visited.map (fun n => chunkIndexOf n.chunk)

/-- Outcome of one oracle attempt, as observed by the retry loops of
src/prompts.ts: the response parses to a value, or `JSON.parse` throws a
`SyntaxError`, or some other error is thrown. -/
inductive OracleOutcome (α : Type) where
  | ok (a : α)
  | syntaxError
  | failure (msg : String)

/-- The shared retry loop of `chooseNextGraphNode` / `extractEntities` /
`extractRDFTriples` / `analyzeChunk` (src/prompts.ts): `while (attempts < 3)`,
a `SyntaxError` increments `attempts` and throws the protocol error once
`attempts` reaches 3, any other error is rethrown immediately.  `remaining`
is the number of loop iterations the guard still allows (3 at entry); the
fuel-0 branch is the unreachable post-loop `throw`. -/
def oracleRetryLoop {α : Type} (oracle : Nat → OracleOutcome α) :
    Nat → Nat → Except String α
  | _, 0 => .error "Failed to extract entities"
  | attempts, remaining + 1 =>
    match oracle attempts with
    | .ok a => .ok a
    | .failure msg => .error msg
    | .syntaxError =>
      if attempts + 1 = 3 then
        .error "Failed to parse JSON response after 3 attempts"
      else oracleRetryLoop oracle (attempts + 1) remaining

/-- An oracle-backed call: run the retry loop from `attempts = 0`. -/
def oracleCall {α : Type} (oracle : Nat → OracleOutcome α) : Except String α :=
  oracleRetryLoop oracle 0 3

/-- src/prompts.ts `QAInput`. -/
structure QAInput where
  chunk : String
  index : Int
deriving DecidableEq, Repr

/-- The context-packing loop of src/prompts.ts `llm_do_question_answer`
(lines 373–383): append `[Chunk i]:\n<chunk>\n\n` while
`context.length + chunk.length <= max_characters`, `break` at the first
failure.  Note the guard counts only the raw chunk length, not the appended
formatting. -/
def buildContextGo (maxChars : Nat) :
    List QAInput → String → List Int → String × List Int
  | [], ctx, idxs => (ctx, idxs)
  | a :: rest, ctx, idxs =>
    if ctx.length + a.chunk.length ≤ maxChars then
      buildContextGo maxChars rest
        (ctx ++ "[Chunk " ++ toString a.index ++ "]:\n" ++ a.chunk ++ "\n\n")
        (idxs ++ [a.index])
    else (ctx, idxs)

/-- Context packing from the empty context, returning the packed context and
the included chunk indices. -/
def buildContext (qaInput : List QAInput) (maxChars : Nat) :
    String × List Int :=
  buildContextGo maxChars qaInput "" []

/-! Concrete instances used by witnesses and counterexamples. -/

/-- A relevance oracle that selects the whole frontier. -/
def chooseId : Nat → List GraphNode → List GraphNode := fun _ fr => fr

/-- A fact `(A, p, B)` extracted from chunk 0. -/
def cxQuadA : GraphNode := ⟨"A", "p", "B", "chunk_0"⟩

/-- A second fact about subject `A`, from the same chunk 0. -/
def cxQuadB : GraphNode := ⟨"A", "r", "C", "chunk_0"⟩

/-- A two-fact cycle `A→B`, `B→A` across two chunks. -/
def cycleStore : List GraphNode :=
  [⟨"A", "p", "B", "chunk_0"⟩, ⟨"B", "p", "A", "chunk_1"⟩]

/-- A concrete value for the abstracted cosine: similarity 9 for embedding
`[1]`, 5 for `[2]`, 9 otherwise — the spec's ranking/tie example. -/
def cosW : List ℚ → List ℚ → ℚ := fun v _ =>
  if v = [1] then 9 else if v = [2] then 5 else 9

/-- Store entries A, B, C in insertion order for the ranking/tie example. -/
def entriesW : List VectorEntry := [⟨"A", [1]⟩, ⟨"B", [2]⟩, ⟨"C", [3]⟩]

/-! ## Helper lemmas: vector store -/

namespace VectorStore

theorem insertDesc_perm (x : Similarity) (l : List Similarity) :
    List.Perm (insertDesc x l) (x :: l) := by
  induction l with
  | nil => simp [insertDesc]
  | cons y ys ih =>
    by_cases h : y.similarity ≤ x.similarity
    · simp only [insertDesc, if_pos h]
      exact List.Perm.refl _
    · simp only [insertDesc, if_neg h]
      exact (ih.cons y).trans (List.Perm.swap x y ys)

theorem sortDesc_perm (l : List Similarity) : List.Perm (sortDesc l) l := by
  induction l with
  | nil => simp [sortDesc]
  | cons x xs ih => exact (insertDesc_perm x (sortDesc xs)).trans (ih.cons x)

theorem insertDesc_sorted (x : Similarity) (l : List Similarity)
    (h : l.Pairwise (fun a b => b.similarity ≤ a.similarity)) :
    (insertDesc x l).Pairwise (fun a b => b.similarity ≤ a.similarity) := by
  induction l with
  | nil => simp [insertDesc]
  | cons y ys ih =>
    rw [List.pairwise_cons] at h
    by_cases hxy : y.similarity ≤ x.similarity
    · simp only [insertDesc, if_pos hxy]
      rw [List.pairwise_cons]
      refine ⟨?_, List.pairwise_cons.mpr h⟩
      intro b hb
      rcases List.mem_cons.mp hb with rfl | hb
      · exact hxy
      · exact le_trans (h.1 b hb) hxy
    · simp only [insertDesc, if_neg hxy]
      rw [List.pairwise_cons]
      refine ⟨?_, ih h.2⟩
      intro b hb
      rcases List.mem_cons.mp ((insertDesc_perm x ys).mem_iff.mp hb) with rfl | hb
      · exact le_of_not_le hxy
      · exact h.1 b hb

theorem sortDesc_sorted (l : List Similarity) :
    (sortDesc l).Pairwise (fun a b => b.similarity ≤ a.similarity) := by
  induction l with
  | nil => simp [sortDesc]
  | cons x xs ih => exact insertDesc_sorted x _ ih

theorem insertDesc_filter (q : ℚ) (x : Similarity) (l : List Similarity) :
    (insertDesc x l).filter (fun s => s.similarity == q) =
      (x :: l).filter (fun s => s.similarity == q) := by
  induction l with
  | nil => rfl
  | cons y ys ih =>
    by_cases hxy : y.similarity ≤ x.similarity
    · simp only [insertDesc, if_pos hxy]
    · by_cases hyq : y.similarity = q
      · by_cases hxq : x.similarity = q
        · exact absurd (le_of_eq (hyq.trans hxq.symm)) hxy
        · simp only [insertDesc, if_neg hxy, List.filter_cons]
          simp [hyq, hxq, ih, List.filter_cons]
      · simp only [insertDesc, if_neg hxy, List.filter_cons]
        simp [hyq, ih, List.filter_cons]

theorem sortDesc_filter (q : ℚ) (l : List Similarity) :
    (sortDesc l).filter (fun s => s.similarity == q) =
      l.filter (fun s => s.similarity == q) := by
  induction l with
  | nil => rfl
  | cons x xs ih =>
    have h : sortDesc (x :: xs) = insertDesc x (sortDesc xs) := rfl
    rw [h, insertDesc_filter]
    simp only [List.filter_cons, ih]

end VectorStore

theorem takeIsPre {α : Type} (k : Nat) (l : List α) : l.take k <+: l := by
  have h := List.prefix_append (l.take k) (l.drop k)
  rwa [List.take_append_drop] at h

theorem filterOfPre {α : Type} (p : α → Bool) {l₁ l₂ : List α} (h : l₁ <+: l₂) :
    l₁.filter p <+: l₂.filter p := by
  obtain ⟨t, rfl⟩ := h
  rw [List.filter_append]
  exact List.prefix_append _ _

namespace VectorStore

theorem cosineSimilarity_ok_iff (cos : List ℚ → List ℚ → ℚ) (v1 v2 : List ℚ) :
    (∃ c, cosineSimilarity cos v1 v2 = .ok c) ↔ v1.length = v2.length := by
  constructor
  · rintro ⟨c, hc⟩
    by_contra hne
    simp [cosineSimilarity, hne] at hc
  · intro h
    unfold cosineSimilarity
    rw [if_neg (by simp [h])]
    split
    · exact ⟨0, rfl⟩
    · exact ⟨cos v1 v2, rfl⟩

theorem cosineSimilarity_error (cos : List ℚ → List ℚ → ℚ) (v1 v2 : List ℚ)
    (msg : String) (h : cosineSimilarity cos v1 v2 = .error msg) :
    msg = "Vectors must have the same length" ∧ v1.length ≠ v2.length := by
  unfold cosineSimilarity at h
  by_cases hl : v1.length = v2.length
  · exfalso
    simp only [hl, ne_eq, not_true_eq_false, if_false] at h
    split at h <;> cases h
  · simp only [hl, ne_eq, not_false_eq_true, if_true] at h
    cases h
    exact ⟨rfl, hl⟩

theorem collectSims_text (cos : List ℚ → List ℚ → ℚ)
    (entries : List VectorEntry) (t : String) (e : List ℚ) :
    ∀ sims, collectSims cos entries t e = .ok sims → ∀ x ∈ sims, x.text ≠ t := by
  induction entries with
  | nil =>
    intro sims h
    simp only [collectSims] at h
    cases h
    simp
  | cons entry rest ih =>
    intro sims h x hx
    by_cases ht : entry.text = t
    · simp only [collectSims, if_pos ht] at h
      exact ih sims h x hx
    · simp only [collectSims, if_neg ht] at h
      cases hc : cosineSimilarity cos entry.embedding e with
      | error msg => simp [hc] at h
      | ok c =>
        rw [hc] at h
        cases hrest : collectSims cos rest t e with
        | error msg => simp [hrest] at h
        | ok sims' =>
          rw [hrest] at h
          simp only [] at h
          cases h
          rcases List.mem_cons.mp hx with rfl | hx'
          · exact ht
          · exact ih sims' hrest x hx'

theorem collectSims_ok_iff (cos : List ℚ → List ℚ → ℚ)
    (entries : List VectorEntry) (t : String) (e : List ℚ) :
    (∃ sims, collectSims cos entries t e = .ok sims) ↔
      ∀ entry ∈ entries, entry.text ≠ t → entry.embedding.length = e.length := by
  induction entries with
  | nil => simp [collectSims]
  | cons entry rest ih =>
    rw [List.forall_mem_cons]
    by_cases ht : entry.text = t
    · simp only [collectSims, if_pos ht]
      rw [ih]
      simp [ht]
    · simp only [collectSims, if_neg ht]
      by_cases hlen : entry.embedding.length = e.length
      · obtain ⟨c, hc⟩ := (cosineSimilarity_ok_iff cos entry.embedding e).mpr hlen
        rw [hc]
        cases hrest : collectSims cos rest t e with
        | error msg =>
          have hno : ¬∀ x ∈ rest, x.text ≠ t → x.embedding.length = e.length := by
            rw [← ih]
            simp [hrest]
          constructor
          · rintro ⟨sims, hs⟩; simp at hs
          · intro hall; exact absurd hall.2 hno
        | ok sims' =>
          have hok : ∀ x ∈ rest, x.text ≠ t → x.embedding.length = e.length :=
            ih.mp ⟨sims', hrest⟩
          constructor
          · intro _; exact ⟨fun _ => hlen, hok⟩
          · intro _; exact ⟨⟨entry.text, c⟩ :: sims', rfl⟩
      · have herr : ∀ c, cosineSimilarity cos entry.embedding e ≠ .ok c := by
          intro c hc
          exact hlen ((cosineSimilarity_ok_iff cos entry.embedding e).mp ⟨c, hc⟩)
        cases hc : cosineSimilarity cos entry.embedding e with
        | error msg =>
          constructor
          · rintro ⟨sims, hs⟩; simp at hs
          · intro hall; exact absurd (hall.1 ht) hlen
        | ok c => exact absurd hc (herr c)

theorem collectSims_error (cos : List ℚ → List ℚ → ℚ)
    (entries : List VectorEntry) (t : String) (e : List ℚ) :
    ∀ msg, collectSims cos entries t e = .error msg →
      msg = "Vectors must have the same length" := by
  induction entries with
  | nil => intro msg h; simp [collectSims] at h
  | cons entry rest ih =>
    intro msg h
    by_cases ht : entry.text = t
    · simp only [collectSims, if_pos ht] at h
      exact ih msg h
    · simp only [collectSims, if_neg ht] at h
      cases hc : cosineSimilarity cos entry.embedding e with
      | error m =>
        rw [hc] at h
        simp only [Except.error.injEq] at h
        subst h
        exact (cosineSimilarity_error cos entry.embedding e _ hc).1
      | ok c =>
        rw [hc] at h
        cases hrest : collectSims cos rest t e with
        | error m =>
          rw [hrest] at h
          simp only [Except.error.injEq] at h
          subst h
          exact ih _ hrest
        | ok sims' => rw [hrest] at h; simp at h

end VectorStore

/-! ## Claims about the vector store -/

/-- C3: whenever `get_most_similar` returns a result `r` for a store, query
label, query embedding and `k`, then: an empty store yields `[]`; the
considered entries are exactly those scored by `collectSims` (all stored
entries whose label differs from the query label, in insertion order); no
returned label equals the query label; `r` is sorted by descending
similarity; `r` is the ranking truncated to `k` (its length is
`min k sims.length`, it is a sub-permutation of the scored sequence, and
every scored entry left out has similarity ≤ every returned one); and ties
are broken by original insertion order (for each similarity value, the slice
of `r` with that value is an initial segment, in order, of the slice of the
insertion-ordered scored sequence with that value). -/
theorem claim_C3_most_similar (cos : List ℚ → List ℚ → ℚ)
    (entries : List VectorEntry) (t : String) (e : List ℚ) (k : Nat)
    (r : List Similarity)
    (h : VectorStore.get_most_similar cos entries t e k = .ok r) :
    (entries = [] → r = [])
    ∧ ∃ sims, VectorStore.collectSims cos entries t e = .ok sims
        ∧ (∀ x ∈ r, x.text ≠ t)
        ∧ r.Pairwise (fun a b => b.similarity ≤ a.similarity)
        ∧ r.length = min k sims.length
        ∧ List.Subperm r sims
        ∧ (∀ y ∈ sims, y ∉ r → ∀ x ∈ r, y.similarity ≤ x.similarity)
        ∧ (∀ q : ℚ, r.filter (fun x => x.similarity == q) <+:
            sims.filter (fun x => x.similarity == q)) := by
  by_cases he : entries = []
  · subst he
    have h0 : VectorStore.get_most_similar cos [] t e k = .ok [] := rfl
    rw [h0] at h
    cases h
    refine ⟨fun _ => rfl, [], rfl, by simp, by simp, by simp, ?_, by simp, ?_⟩
    · exact List.nil_subperm
    · intro q
      simp only [List.filter_nil]
      exact List.prefix_refl _
  · have hlen0 : ¬ entries.length = 0 := by
      simpa [List.length_eq_zero] using he
    simp only [VectorStore.get_most_similar, if_neg hlen0] at h
    cases hc : VectorStore.collectSims cos entries t e with
    | error msg => rw [hc] at h; simp at h
    | ok sims =>
      rw [hc] at h
      simp only [Except.ok.injEq] at h
      subst h
      have hperm := VectorStore.sortDesc_perm sims
      have hsorted := VectorStore.sortDesc_sorted sims
      have htake : (VectorStore.sortDesc sims).take k <+: VectorStore.sortDesc sims :=
        takeIsPre k _
      have hsub : List.Sublist ((VectorStore.sortDesc sims).take k)
          (VectorStore.sortDesc sims) :=
        htake.sublist
      refine ⟨fun hemp => absurd hemp he, sims, rfl, ?_, ?_, ?_, ?_, ?_, ?_⟩
      · intro x hx
        exact VectorStore.collectSims_text cos entries t e sims hc x
          (hperm.mem_iff.mp (hsub.subset hx))
      · exact List.Pairwise.sublist hsub hsorted
      · rw [List.length_take, hperm.length_eq]
      · exact hsub.subperm.trans hperm.subperm
      · intro y hy hy' x hx
        have hys : y ∈ VectorStore.sortDesc sims := hperm.mem_iff.mpr hy
        have hys' : y ∈ (VectorStore.sortDesc sims).take k ++
            (VectorStore.sortDesc sims).drop k := by
          rw [List.take_append_drop]; exact hys
        rcases List.mem_append.mp hys' with h1 | h2
        · exact absurd h1 hy'
        · have hpw := hsorted
          rw [← List.take_append_drop k (VectorStore.sortDesc sims)] at hpw
          exact (List.pairwise_append.mp hpw).2.2 x hx y h2
      · intro q
        have h1 := filterOfPre (fun x => x.similarity == q) htake
        rwa [VectorStore.sortDesc_filter] at h1

/-- C3 witness: the spec's ranking/tie example — entries A, B, C in insertion
order with similarities 9, 5, 9; `k = 2` returns `[A, C]` in that order. -/
theorem claim_C3_witness :
    (entriesW = [] → ([⟨"A", 9⟩, ⟨"C", 9⟩] : List Similarity) = [])
    ∧ ∃ sims, VectorStore.collectSims cosW entriesW "Q" [7] = .ok sims
        ∧ (∀ x ∈ ([⟨"A", 9⟩, ⟨"C", 9⟩] : List Similarity), x.text ≠ "Q")
        ∧ ([⟨"A", 9⟩, ⟨"C", 9⟩] : List Similarity).Pairwise
            (fun a b => b.similarity ≤ a.similarity)
        ∧ ([⟨"A", 9⟩, ⟨"C", 9⟩] : List Similarity).length = min 2 sims.length
        ∧ List.Subperm ([⟨"A", 9⟩, ⟨"C", 9⟩] : List Similarity) sims
        ∧ (∀ y ∈ sims, y ∉ ([⟨"A", 9⟩, ⟨"C", 9⟩] : List Similarity) →
            ∀ x ∈ ([⟨"A", 9⟩, ⟨"C", 9⟩] : List Similarity),
              y.similarity ≤ x.similarity)
        ∧ (∀ q : ℚ, ([⟨"A", 9⟩, ⟨"C", 9⟩] : List Similarity).filter
              (fun x => x.similarity == q) <+:
            sims.filter (fun x => x.similarity == q)) :=
  claim_C3_most_similar cosW entriesW "Q" [7] 2 [⟨"A", 9⟩, ⟨"C", 9⟩] (by
    simp [VectorStore.get_most_similar, VectorStore.collectSims,
      VectorStore.cosineSimilarity, VectorStore.magnitudeSq,
      VectorStore.sortDesc, VectorStore.insertDesc, cosW, entriesW])

/-- C8: `VectorStore.store` is idempotent with first-write-wins semantics:
a call with an already-present label changes nothing, and for a label not yet
present, storing `(t, e1)` and then `(t, e2)` leaves the store with exactly
one entry labelled `t`, holding `e1`. -/
theorem claim_C8_idempotent (entries : List VectorEntry) (t : String)
    (e e1 e2 : List ℚ) :
    (VectorStore.contains entries t = true →
      VectorStore.store entries t e = entries)
    ∧ (VectorStore.contains entries t = false →
        VectorStore.store (VectorStore.store entries t e1) t e2 =
          VectorStore.store entries t e1
        ∧ (VectorStore.store (VectorStore.store entries t e1) t e2).filter
            (fun x => x.text == t) = [⟨t, e1⟩]) := by
  constructor
  · intro hc
    simp [VectorStore.store, hc]
  · intro hc
    have hprop : ∀ x ∈ entries, ¬ x.text = t := by
      simpa [VectorStore.contains, List.any_eq_false] using hc
    have hst : VectorStore.store entries t e1 = entries ++ [⟨t, e1⟩] := by
      simp [VectorStore.store, hc]
    have hc2 : VectorStore.contains (entries ++ [⟨t, e1⟩]) t = true := by
      simp [VectorStore.contains]
    have hno : VectorStore.store (VectorStore.store entries t e1) t e2 =
        VectorStore.store entries t e1 := by
      rw [hst]
      simp [VectorStore.store, hc2]
    refine ⟨hno, ?_⟩
    rw [hno, hst, List.filter_append]
    have hfe : entries.filter (fun x => x.text == t) = [] := by
      rw [List.filter_eq_nil_iff]
      intro x hx
      simp [hprop x hx]
    simp [hfe]

/-- C8 witness: storing label `a` twice from the empty store keeps one entry
holding the first embedding. -/
theorem claim_C8_witness :
    VectorStore.store (VectorStore.store [] "a" [1]) "a" [2] =
      VectorStore.store [] "a" [1]
    ∧ (VectorStore.store (VectorStore.store [] "a" [1]) "a" [2]).filter
        (fun x => x.text == "a") = [⟨"a", [1]⟩] :=
  (claim_C8_idempotent [] "a" [1] [1] [2]).2 rfl

/-- C10: `get_most_similar` propagates the dimension-mismatch error of
`cosineSimilarity`: whenever some stored entry with a label different from the
query label has an embedding length different from the query embedding's, the
call returns the dimension-mismatch error instead of a ranking; and it returns
normally exactly when every considered entry's embedding length matches. -/
theorem claim_C10_dimension_mismatch (cos : List ℚ → List ℚ → ℚ)
    (entries : List VectorEntry) (t : String) (e : List ℚ) (k : Nat) :
    ((∃ entry ∈ entries, entry.text ≠ t ∧ entry.embedding.length ≠ e.length) →
      VectorStore.get_most_similar cos entries t e k =
        .error "Vectors must have the same length")
    ∧ ((∃ r, VectorStore.get_most_similar cos entries t e k = .ok r) ↔
        ∀ entry ∈ entries, entry.text ≠ t →
          entry.embedding.length = e.length) := by
  have hmain : (∃ r, VectorStore.get_most_similar cos entries t e k = .ok r) ↔
      ∀ entry ∈ entries, entry.text ≠ t → entry.embedding.length = e.length := by
    by_cases he : entries = []
    · subst he
      simp [VectorStore.get_most_similar]
    · have hlen0 : ¬ entries.length = 0 := by
        simpa [List.length_eq_zero] using he
      rw [← VectorStore.collectSims_ok_iff cos entries t e]
      constructor
      · rintro ⟨r, hr⟩
        simp only [VectorStore.get_most_similar, if_neg hlen0] at hr
        cases hc : VectorStore.collectSims cos entries t e with
        | error msg => rw [hc] at hr; simp at hr
        | ok sims => exact ⟨sims, rfl⟩
      · rintro ⟨sims, hc⟩
        refine ⟨(VectorStore.sortDesc sims).take k, ?_⟩
        simp only [VectorStore.get_most_similar, if_neg hlen0, hc]
  refine ⟨?_, hmain⟩
  rintro ⟨entry, hmem, hne, hlen⟩
  have hnot : ¬∃ r, VectorStore.get_most_similar cos entries t e k = .ok r := by
    rw [hmain]
    intro hall
    exact hlen (hall entry hmem hne)
  have he : entries ≠ [] := by
    rintro rfl
    simp at hmem
  have hlen0 : ¬ entries.length = 0 := by
    simpa [List.length_eq_zero] using he
  simp only [VectorStore.get_most_similar, if_neg hlen0]
  cases hc : VectorStore.collectSims cos entries t e with
  | error msg =>
    have hmsg := VectorStore.collectSims_error cos entries t e msg hc
    simp [hmsg]
  | ok sims =>
    exact absurd ⟨(VectorStore.sortDesc sims).take k, by
      simp only [VectorStore.get_most_similar, if_neg hlen0, hc]⟩ hnot

/-- C10 witness: a store with one entry of dimension 2 queried with a
dimension-1 embedding raises the dimension-mismatch error. -/
theorem claim_C10_witness :
    VectorStore.get_most_similar cosW [⟨"x", [1, 2]⟩] "q" [1] 10 =
      .error "Vectors must have the same length" :=
  (claim_C10_dimension_mismatch cosW [⟨"x", [1, 2]⟩] "q" [1] 10).1
    ⟨⟨"x", [1, 2]⟩, by decide, by decide, by decide⟩

/-! ## Claims about persistence, the graph store and the oracle protocol -/

/-- C7: loading the persisted embedding store is all-or-nothing.  A missing
file yields an empty store with a successful outcome; when the parsed content
has no array-shaped `entries` field, or some entry fails the per-entry
validation (truthy `text`, array-shaped `embedding`), the load fails with a
format error and the entry list is exactly what it was before the call; a
fully valid file replaces the entries. -/
theorem claim_C7_load (current : List JVal) (parsed : JVal) :
    VectorStore.load current none = (.ok (), [])
    ∧ (∀ err, (VectorStore.load current (some parsed)).1 = .error err →
        (VectorStore.load current (some parsed)).2 = current)
    ∧ ((∀ entries, parsed.getField "entries" ≠ some (.jarr entries)) →
        VectorStore.load current (some parsed) =
          (.error "Failed to load vector store: Invalid vector store file format",
            current))
    ∧ (∀ entries, parsed.getField "entries" = some (.jarr entries) →
        ¬ entries.all VectorStore.validEntry = true →
        VectorStore.load current (some parsed) =
          (.error "Failed to load vector store: Invalid entry format in vector store file",
            current))
    ∧ (∀ entries, parsed.getField "entries" = some (.jarr entries) →
        entries.all VectorStore.validEntry = true →
        VectorStore.load current (some parsed) = (.ok (), entries)) := by
  have h3 : (∀ entries, parsed.getField "entries" ≠ some (.jarr entries)) →
      VectorStore.load current (some parsed) =
        (.error "Failed to load vector store: Invalid vector store file format",
          current) := by
    intro hno
    simp only [VectorStore.load]
  have h4 : ∀ entries, parsed.getField "entries" = some (.jarr entries) →
      ¬ entries.all VectorStore.validEntry = true →
      VectorStore.load current (some parsed) =
        (.error "Failed to load vector store: Invalid entry format in vector store file",
          current) := by
    intro entries hg hv
    simp only [VectorStore.load, hg]
    rw [if_neg hv]
  have h5 : ∀ entries, parsed.getField "entries" = some (.jarr entries) →
      entries.all VectorStore.validEntry = true →
      VectorStore.load current (some parsed) = (.ok (), entries) := by
    intro entries hg hv
    simp only [VectorStore.load, hg]
    rw [if_pos hv]
  refine ⟨rfl, ?_, h3, h4, h5⟩
  intro err herr
  by_cases hj : ∃ entries, parsed.getField "entries" = some (.jarr entries)
  · obtain ⟨entries, hg⟩ := hj
    by_cases hv : entries.all VectorStore.validEntry = true
    · rw [h5 entries hg hv] at herr
      simp at herr
    · rw [h4 entries hg hv]
  · push_neg at hj
    rw [h3 hj]

/-- C7 witness: loading parsed content `null` (no `entries` array) fails with
the format error and leaves the one-element store untouched, while a missing
file yields an empty store with a successful outcome. -/
theorem claim_C7_witness :
    VectorStore.load [JVal.jstr "old"] (some JVal.jnull) =
      (.error "Failed to load vector store: Invalid vector store file format",
        [JVal.jstr "old"])
    ∧ VectorStore.load [JVal.jstr "old"] none = (.ok (), []) :=
  ⟨(claim_C7_load [JVal.jstr "old"] JVal.jnull).2.2.1
      (fun entries h => by simp [JVal.getField] at h),
    (claim_C7_load [JVal.jstr "old"] JVal.jnull).1⟩

/-- C2: the knowledge-graph store keeps one stored entry per insertion —
inserting the identical 4-tuple twice leaves two separate entries (the tail
of the store is the quad twice, the multiset count grows by exactly two, and
every insertion grows the store by one). -/
theorem claim_C2_multiset (store : List GraphNode) (s p o prov : String) :
    addFact (addFact store s p o prov) s p o prov =
      store ++ [⟨s, p, o, prov⟩, ⟨s, p, o, prov⟩]
    ∧ (addFact (addFact store s p o prov) s p o prov).count
        (⟨s, p, o, prov⟩ : GraphNode) =
        store.count (⟨s, p, o, prov⟩ : GraphNode) + 2
    ∧ (addFact store s p o prov).length = store.length + 1 := by
  refine ⟨by simp [addFact], ?_, by simp [addFact]⟩
  simp [addFact, List.count_append]

/-- C6: the shared oracle retry discipline.  Starting from attempt 0, parse
failures are retried in place; a successful parse at attempt `k < 3` (after
`k` parse failures) returns its value; a non-parse error at attempt `k < 3`
propagates immediately as that error; three consecutive parse failures
surface the oracle-protocol error. -/
theorem claim_C6_retry (α : Type) (oracle : Nat → OracleOutcome α) :
    (∀ k a, k < 3 → (∀ i, i < k → oracle i = .syntaxError) → oracle k = .ok a →
        oracleCall oracle = .ok a)
    ∧ (∀ k msg, k < 3 → (∀ i, i < k → oracle i = .syntaxError) →
        oracle k = .failure msg → oracleCall oracle = .error msg)
    ∧ ((∀ i, i < 3 → oracle i = .syntaxError) →
        oracleCall oracle = .error "Failed to parse JSON response after 3 attempts") := by
  refine ⟨?_, ?_, ?_⟩
  · intro k a hk hprev hok
    interval_cases k
    · simp [oracleCall, oracleRetryLoop, hok]
    · have h0 := hprev 0 (by omega)
      simp [oracleCall, oracleRetryLoop, h0, hok]
    · have h0 := hprev 0 (by omega)
      have h1 := hprev 1 (by omega)
      simp [oracleCall, oracleRetryLoop, h0, h1, hok]
  · intro k msg hk hprev hfail
    interval_cases k
    · simp [oracleCall, oracleRetryLoop, hfail]
    · have h0 := hprev 0 (by omega)
      simp [oracleCall, oracleRetryLoop, h0, hfail]
    · have h0 := hprev 0 (by omega)
      have h1 := hprev 1 (by omega)
      simp [oracleCall, oracleRetryLoop, h0, h1, hfail]
  · intro hall
    have h0 := hall 0 (by omega)
    have h1 := hall 1 (by omega)
    have h2 := hall 2 (by omega)
    simp [oracleCall, oracleRetryLoop, h0, h1, h2]

/-- C6 witness: an oracle whose response never parses makes the call fail with
the protocol error after the three attempts. -/
theorem claim_C6_witness :
    oracleCall (fun _ => (OracleOutcome.syntaxError : OracleOutcome Nat)) =
      .error "Failed to parse JSON response after 3 attempts" :=
  (claim_C6_retry Nat (fun _ => OracleOutcome.syntaxError)).2.2 (fun _ _ => rfl)

/-! ## Helper lemmas: the multi-hop traversal -/

theorem visitQuads_spec (qs : List GraphNode) :
    ∀ visited : List GraphNode,
      (visitQuads visited qs).2 = visited ++ (visitQuads visited qs).1
      ∧ (visitQuads visited qs).1.Nodup
      ∧ (∀ n ∈ (visitQuads visited qs).1, n ∉ visited)
      ∧ (∀ n ∈ (visitQuads visited qs).1, n ∈ qs) := by
  induction qs with
  | nil => intro visited; simp [visitQuads]
  | cons n rest ih =>
    intro visited
    by_cases hn : n ∈ visited
    · simp only [visitQuads, if_pos hn]
      obtain ⟨h1, h2, h3, h4⟩ := ih visited
      exact ⟨h1, h2, h3, fun m hm => List.mem_cons_of_mem n (h4 m hm)⟩
    · simp only [visitQuads, if_neg hn]
      obtain ⟨h1, h2, h3, h4⟩ := ih (visited ++ [n])
      refine ⟨?_, ?_, ?_, ?_⟩
      · rw [h1]; simp
      · rw [List.nodup_cons]
        exact ⟨fun hmem => (h3 n hmem) (by simp), h2⟩
      · intro m hm
        rcases List.mem_cons.mp hm with rfl | hm'
        · exact hn
        · exact fun hmv => (h3 m hm') (List.mem_append_left _ hmv)
      · intro m hm
        rcases List.mem_cons.mp hm with rfl | hm'
        · exact List.mem_cons_self _ _
        · exact List.mem_cons_of_mem _ (h4 m hm')

theorem expandNodes_spec (store : List GraphNode) (nodes : List GraphNode) :
    ∀ visited : List GraphNode,
      (expandNodes store visited nodes).2 =
        visited ++ (expandNodes store visited nodes).1
      ∧ (expandNodes store visited nodes).1.Nodup
      ∧ (∀ n ∈ (expandNodes store visited nodes).1, n ∉ visited)
      ∧ (∀ n ∈ (expandNodes store visited nodes).1, ∃ node ∈ nodes,
          n ∈ matchObj store node.value ++ matchSubj store node.subject) := by
  induction nodes with
  | nil => intro visited; simp [expandNodes]
  | cons node rest ih =>
    intro visited
    obtain ⟨v1, n1, d1, m1⟩ :=
      visitQuads_spec (matchObj store node.value ++ matchSubj store node.subject)
        visited
    obtain ⟨v2, n2, d2, m2⟩ :=
      ih (visitQuads visited
        (matchObj store node.value ++ matchSubj store node.subject)).2
    simp only [expandNodes]
    refine ⟨?_, ?_, ?_, ?_⟩
    · rw [v2, v1, List.append_assoc]
    · refine List.nodup_append.mpr ⟨n1, n2, ?_⟩
      intro a ha1 ha2
      exact d2 a ha2 (by rw [v1]; exact List.mem_append_right _ ha1)
    · intro m hm
      rcases List.mem_append.mp hm with hm1 | hm2
      · exact d1 m hm1
      · exact fun hv => d2 m hm2 (by rw [v1]; exact List.mem_append_left _ hv)
    · intro m hm
      rcases List.mem_append.mp hm with hm1 | hm2
      · exact ⟨node, List.mem_cons_self _ _, m1 m hm1⟩
      · obtain ⟨node', hn', hmem⟩ := m2 m hm2
        exact ⟨node', List.mem_cons_of_mem _ hn', hmem⟩

theorem queryLoop_depth_le (choose : Nat → List GraphNode → List GraphNode)
    (store : List GraphNode) :
    ∀ (fuel depth : Nat) (frontier visited : List GraphNode),
      (queryLoop choose store fuel depth frontier visited).2 ≤ max depth 3 := by
  intro fuel
  induction fuel with
  | zero => intro depth frontier visited; exact le_max_left _ _
  | succ fuel ih =>
    intro depth frontier visited
    simp only [queryLoop]
    by_cases hd : 2 < depth
    · rw [if_pos hd]; exact le_max_left _ _
    · rw [if_neg hd]
      by_cases hf : frontier = []
      · rw [if_pos hf]; exact le_max_left _ _
      · rw [if_neg hf]
        have h := ih (depth + 1)
          (expandNodes store visited (choose depth frontier)).1
          (expandNodes store visited (choose depth frontier)).2
        have hmax : max (depth + 1) 3 = 3 := max_eq_right (by omega)
        exact le_trans (le_trans h (le_of_eq hmax)) (le_max_right _ _)

theorem queryLoop_fuel_stable (choose : Nat → List GraphNode → List GraphNode)
    (store : List GraphNode) :
    ∀ (fuel extra depth : Nat) (frontier visited : List GraphNode),
      3 ≤ depth + fuel →
      queryLoop choose store (fuel + extra) depth frontier visited =
        queryLoop choose store fuel depth frontier visited := by
  intro fuel
  induction fuel with
  | zero =>
    intro extra depth frontier visited h3
    have hd : 2 < depth := by omega
    rw [Nat.zero_add]
    cases extra with
    | zero => rfl
    | succ e => simp [queryLoop, hd]
  | succ fuel ih =>
    intro extra depth frontier visited h3
    have heq : fuel + 1 + extra = (fuel + extra) + 1 := by omega
    rw [heq]
    by_cases hd : 2 < depth
    · simp [queryLoop, hd]
    · by_cases hf : frontier = []
      · simp [queryLoop, hd, hf]
      · simp only [queryLoop, if_neg hd, if_neg hf]
        exact ih extra (depth + 1) _ _ (by omega)

theorem queryLoop_nodup (choose : Nat → List GraphNode → List GraphNode)
    (store : List GraphNode) :
    ∀ (fuel depth : Nat) (frontier visited : List GraphNode),
      visited.Nodup → (queryLoop choose store fuel depth frontier visited).1.Nodup := by
  intro fuel
  induction fuel with
  | zero => intro _ _ _ h; exact h
  | succ fuel ih =>
    intro depth frontier visited h
    simp only [queryLoop]
    by_cases hd : 2 < depth
    · rw [if_pos hd]; exact h
    · rw [if_neg hd]
      by_cases hf : frontier = []
      · rw [if_pos hf]; exact h
      · rw [if_neg hf]
        apply ih
        obtain ⟨v2, n2, d2, _⟩ := expandNodes_spec store (choose depth frontier) visited
        rw [v2]
        exact List.nodup_append.mpr ⟨h, n2, fun a ha1 ha2 => d2 a ha2 ha1⟩

/-! ## Claims about the multi-hop traversal -/

/-- C4: for every relevance-oracle behaviour, fact graph and initial frontier
(cyclic graphs included, since the store is universally quantified), the
expansion loop executes at most 3 hops; a hop counter above 2 or an empty
frontier stops it immediately with the visited set unchanged; and granting the
loop any extra fuel does not change the outcome (it has genuinely
terminated). -/
theorem claim_C4_termination (choose : Nat → List GraphNode → List GraphNode)
    (store frontier : List GraphNode) :
    (queryTraversal choose store frontier).2 ≤ 3
    ∧ (∀ (fuel depth : Nat) (fr vis : List GraphNode), 2 < depth →
        queryLoop choose store (fuel + 1) depth fr vis = (vis, depth))
    ∧ (∀ (fuel depth : Nat) (vis : List GraphNode),
        queryLoop choose store (fuel + 1) depth [] vis = (vis, depth))
    ∧ (∀ extra : Nat, queryLoop choose store (4 + extra) 0 frontier [] =
        queryTraversal choose store frontier) := by
  refine ⟨?_, ?_, ?_, ?_⟩
  · have h := queryLoop_depth_le choose store 4 0 frontier []
    simpa [queryTraversal] using h
  · intro fuel depth fr vis hd
    simp [queryLoop, hd]
  · intro fuel depth vis
    by_cases hd : 2 < depth <;> simp [queryLoop, hd]
  · intro extra
    exact queryLoop_fuel_stable choose store 4 extra 0 frontier [] (by omega)

/-- C4 witness: on the concrete two-fact cycle `A→B→A` the traversal executes
at most 3 hops, and a loop entered with hop counter 5 stops at once. -/
theorem claim_C4_witness :
    (queryTraversal chooseId cycleStore [⟨"A", "p", "B", "chunk_0"⟩]).2 ≤ 3
    ∧ queryLoop chooseId cycleStore 1 5 [⟨"A", "p", "B", "chunk_0"⟩] [] = ([], 5) :=
  ⟨(claim_C4_termination chooseId cycleStore [⟨"A", "p", "B", "chunk_0"⟩]).1,
    (claim_C4_termination chooseId cycleStore [⟨"A", "p", "B", "chunk_0"⟩]).2.1
      0 5 [⟨"A", "p", "B", "chunk_0"⟩] [] (by omega)⟩

/-- C5: within one EXPAND step over the selected nodes, the visited set grows
by exactly the newly found first-seen facts (which are also exactly the next
frontier): the new frontier contains no duplicates — even when a fact is
reachable through the object-match and the subject-match query of the same or
of two selected nodes in the same hop — none of its facts was already visited,
each comes from the union of the two expansion queries of some selected node,
and a duplicate-free visited set stays duplicate-free. -/
theorem claim_C5_dedup (store visited nodes : List GraphNode) :
    (expandNodes store visited nodes).2 =
      visited ++ (expandNodes store visited nodes).1
    ∧ (expandNodes store visited nodes).1.Nodup
    ∧ (∀ n ∈ (expandNodes store visited nodes).1, n ∉ visited)
    ∧ (∀ n ∈ (expandNodes store visited nodes).1, ∃ node ∈ nodes,
        n ∈ matchObj store node.value ++ matchSubj store node.subject)
    ∧ (visited.Nodup → (expandNodes store visited nodes).2.Nodup) := by
  obtain ⟨v, n, d, m⟩ := expandNodes_spec store nodes visited
  refine ⟨v, n, d, m, fun h => ?_⟩
  rw [v]
  exact List.nodup_append.mpr ⟨h, n, fun a ha1 ha2 => d a ha2 ha1⟩

/-- C5 witness: expanding the node `(A, p, B, chunk_0)` over a two-fact store
from an empty visited set — the fact is reachable through both expansion
queries in this single hop, and the resulting visited set has no duplicates. -/
theorem claim_C5_witness :
    (expandNodes [cxQuadA, cxQuadB] [] [cxQuadA]).2 =
      [] ++ (expandNodes [cxQuadA, cxQuadB] [] [cxQuadA]).1
    ∧ (expandNodes [cxQuadA, cxQuadB] [] [cxQuadA]).2.Nodup :=
  ⟨(claim_C5_dedup [cxQuadA, cxQuadB] [] [cxQuadA]).1,
    (claim_C5_dedup [cxQuadA, cxQuadB] [] [cxQuadA]).2.2.2.2 List.nodup_nil⟩

/-- C1 (counterexample): a run in which two distinct visited facts share the
provenance `chunk_0` hands the answer stage the identifier `"0"` twice — the
retrieval result is not duplicate-free, contradicting "each provenance
identifier occurs at most once in the result". -/
theorem claim_C1_counterexample :
    retrievalResult (queryTraversal chooseId [cxQuadA, cxQuadB] [cxQuadA]).1 =
      [some "0", some "0"]
    ∧ ¬ (retrievalResult
          (queryTraversal chooseId [cxQuadA, cxQuadB] [cxQuadA]).1).Nodup :=
  ⟨by decide, by decide⟩

/-- C1 (amended): the retrieval result handed to the answer stage is the list
of provenance identifiers of the visited facts in visit order, one entry per
visited fact — its length equals the visited-set size and its members are
exactly the visited facts' identifiers — with no deduplication (the visited
set itself, however, never contains a duplicate fact). -/
theorem claim_C1_amended (choose : Nat → List GraphNode → List GraphNode)
    (store frontier : List GraphNode) :
    (queryTraversal choose store frontier).1.Nodup
    ∧ (retrievalResult (queryTraversal choose store frontier).1).length =
        (queryTraversal choose store frontier).1.length
    ∧ (∀ p : Option String,
        p ∈ retrievalResult (queryTraversal choose store frontier).1 ↔
          ∃ n ∈ (queryTraversal choose store frontier).1,
            chunkIndexOf n.chunk = p) := by
  refine ⟨queryLoop_nodup choose store 4 0 frontier [] List.nodup_nil, ?_, ?_⟩
  · simp [retrievalResult]
  · intro p
    simp [retrievalResult, List.mem_map]

/-- C1 witness: the amended statement evaluated on the concrete duplicate-
provenance run. -/
theorem claim_C1_witness :
    (queryTraversal chooseId [cxQuadA, cxQuadB] [cxQuadA]).1.Nodup
    ∧ (retrievalResult (queryTraversal chooseId [cxQuadA, cxQuadB] [cxQuadA]).1).length =
        (queryTraversal chooseId [cxQuadA, cxQuadB] [cxQuadA]).1.length :=
  ⟨(claim_C1_amended chooseId [cxQuadA, cxQuadB] [cxQuadA]).1,
    (claim_C1_amended chooseId [cxQuadA, cxQuadB] [cxQuadA]).2.1⟩

/-! ## Claims about the retrieval-to-answer handoff -/

theorem buildContextGo_spec (m : Nat) (l : List QAInput) :
    ∀ (ctx : String) (idxs : List Int), ∃ n,
      n ≤ l.length
      ∧ (buildContextGo m l ctx idxs).2 = idxs ++ (l.take n).map QAInput.index
      ∧ ctx.length + ((l.take n).map (fun a => a.chunk.length)).sum ≤
          max m ctx.length
      ∧ (∀ h : n < l.length,
          m < (buildContextGo m l ctx idxs).1.length +
            (l.get ⟨n, h⟩).chunk.length) := by
  induction l with
  | nil =>
    intro ctx idxs
    refine ⟨0, le_refl _, by simp [buildContextGo], ?_, ?_⟩
    · simp
    · intro h; simp at h
  | cons a rest ih =>
    intro ctx idxs
    by_cases hfit : ctx.length + a.chunk.length ≤ m
    · obtain ⟨n', hn', hA, hC, hD⟩ :=
        ih (ctx ++ "[Chunk " ++ toString a.index ++ "]:\n" ++ a.chunk ++ "\n\n")
          (idxs ++ [a.index])
      have hgrow : ctx.length + a.chunk.length ≤
          (ctx ++ "[Chunk " ++ toString a.index ++ "]:\n" ++ a.chunk ++
            "\n\n").length := by
        simp only [String.length_append]
        omega
      refine ⟨n' + 1, by simpa using Nat.succ_le_succ hn', ?_, ?_, ?_⟩
      · simp only [buildContextGo, if_pos hfit]
        rw [hA]
        simp
      · rw [le_max_iff] at hC
        rcases hC with h1 | h2 <;>
          · rw [le_max_iff]
            left
            simp only [List.take_succ_cons, List.map_cons, List.sum_cons]
            omega
      · intro h
        simp only [buildContextGo, if_pos hfit]
        have h' : n' < rest.length := by simpa using Nat.lt_of_succ_lt_succ h
        simpa using hD h'
    · refine ⟨0, by simp, ?_, ?_, ?_⟩
      · simp [buildContextGo, hfit]
      · simp
      · intro h
        simp only [buildContextGo, if_neg hfit]
        simp only [List.get]
        omega

/-- C9 (amended): the handoff packs whole chunks in traversal order — the
included indices are exactly those of a prefix of the input, cut at the first
chunk whose raw text would push the running context length past the budget —
and the total raw characters of the packed chunk texts never exceed the
budget.  The context string additionally carries per-chunk formatting
(`[Chunk i]:` header and separators) that the budget check does not count, so
the context itself can exceed the budget (see the counterexample). -/
theorem claim_C9_amended (qaInput : List QAInput) (maxChars : Nat) : ∃ n,
    n ≤ qaInput.length
    ∧ (buildContext qaInput maxChars).2 = (qaInput.take n).map QAInput.index
    ∧ ((qaInput.take n).map (fun a => a.chunk.length)).sum ≤ maxChars
    ∧ (∀ h : n < qaInput.length,
        maxChars < (buildContext qaInput maxChars).1.length +
          (qaInput.get ⟨n, h⟩).chunk.length) := by
  obtain ⟨n, hn, hA, hC, hD⟩ := buildContextGo_spec maxChars qaInput "" []
  refine ⟨n, hn, ?_, ?_, hD⟩
  · simpa [buildContext] using hA
  · simpa using hC

/-- C9 (counterexample): with budget 5, the single chunk `"abcde"` (5 raw
characters) passes the check, but the packed context
`"[Chunk 0]:\nabcde\n\n"` is 18 characters — the packed context exceeds the
total-character budget, contradicting "the total characters of the packed
context never exceed the budget". -/
theorem claim_C9_counterexample :
    (buildContext [⟨"abcde", 0⟩] 5).1.length = 18
    ∧ ¬ (buildContext [⟨"abcde", 0⟩] 5).1.length ≤ 5 :=
  ⟨by decide, by decide⟩

/-- C9 witness: the amended statement instantiated on one chunk of 2
characters under budget 20. -/
theorem claim_C9_witness : ∃ n,
    n ≤ ([⟨"ab", 0⟩] : List QAInput).length
    ∧ (buildContext [⟨"ab", 0⟩] 20).2 =
        (([⟨"ab", 0⟩] : List QAInput).take n).map QAInput.index
    ∧ ((([⟨"ab", 0⟩] : List QAInput).take n).map
        (fun a => a.chunk.length)).sum ≤ 20
    ∧ (∀ h : n < ([⟨"ab", 0⟩] : List QAInput).length,
        20 < (buildContext [⟨"ab", 0⟩] 20).1.length +
          (([⟨"ab", 0⟩] : List QAInput).get ⟨n, h⟩).chunk.length) :=
  claim_C9_amended [⟨"ab", 0⟩] 20
